import Mathlib

/-!
Verification of the CS2-Model aggregation / projection / line-tracking core.

The definitions below are a shallow embedding of the Python sources
`backend/projection_model.py`, `backend/line_tracker.py`,
`backend/data_aggregator.py` and `backend/stats_fetcher.py`.
Floats are idealised as rationals; `round(x, 1)` is modelled by
round-half-to-even on the value scaled by ten, matching Python's
behaviour on decimally exact inputs.  Randomness (the `gauss` draws)
is made explicit: each sampled value is a parameter, so theorems
quantify over all possible draws.
-/

/-- Python's `round` to an integer: round half to even. -/
def rhe (q : ℚ) : ℤ :=
  if q - (⌊q⌋ : ℚ) < 1/2 then ⌊q⌋
  else if q - (⌊q⌋ : ℚ) > 1/2 then ⌊q⌋ + 1
  else if ⌊q⌋ % 2 = 0 then ⌊q⌋ else ⌊q⌋ + 1

/-- Python's `round(x, 1)`. -/
def round1 (q : ℚ) : ℚ := (rhe (q * 10) : ℚ) / 10

/-- Does the character list `needle` occur at the head of `hay`? -/
def listStarts : List Char → List Char → Bool
  | [], _ => true
  | _ :: _, [] => false
  | a :: as, b :: bs => a == b && listStarts as bs

/-- Does `needle` occur somewhere inside `hay`?  (Python's `in` on strings.) -/
def substrB (needle : List Char) : List Char → Bool
  | [] => listStarts needle []
  | b :: bs => listStarts needle (b :: bs) || substrB needle bs

/-- Python's `str.upper()` for the ASCII names in play. -/
def upChars (s : String) : List Char := s.toList.map Char.toUpper

/-- Python's `str.lower()` for the ASCII names in play. -/
def lowChars (s : String) : List Char := s.toList.map Char.toLower

/-! ## Projection model (`backend/projection_model.py`) -/

/-- One platform's posted line (`dfs_lines` entries). -/
structure DFSLine where
  platform : String
  stat_type : String
  line : ℚ
  maps : String
deriving DecidableEq, Repr

/-- Interface of `CS2StatsFetcher` (`backend/stats_fetcher.py`): the
network/cache layer is abstracted into the data the provider would
return for each name. -/
structure CS2StatsFetcher where
  enable_real_data : Bool
  playerFormData : String → Option ℚ
  teamRatingData : String → Option ℚ

/-- `CS2StatsFetcher.fetch_player_recent_form`: returns `None` when real
data is disabled, otherwise whatever the provider has for the player. -/
def fetch_player_recent_form (f : CS2StatsFetcher) (player_name : String) : Option ℚ :=
  if f.enable_real_data then f.playerFormData player_name else none

/-- `CS2StatsFetcher.fetch_team_rating`. -/
def fetch_team_rating (f : CS2StatsFetcher) (team_name : String) : Option ℚ :=
  if f.enable_real_data then f.teamRatingData team_name else none

/-- `CS2ProjectionModel._initialize_team_ratings`, in dict insertion order. -/
def initialize_team_ratings : List (String × ℚ) :=
  [("Navi", 115/100), ("NATUS VINCERE", 115/100),
   ("FaZe", 112/100), ("FAZE CLAN", 112/100),
   ("Vitality", 114/100), ("TEAM VITALITY", 114/100),
   ("G2", 110/100), ("G2 ESPORTS", 110/100),
   ("MOUZ", 108/100),
   ("Liquid", 105/100), ("TEAM LIQUID", 105/100),
   ("Heroic", 103/100),
   ("Astralis", 102/100),
   ("ENCE", 1),
   ("DEFAULT", 1)]

/-- State of a `CS2ProjectionModel` instance. -/
structure CS2ProjectionModel where
  team_ratings : List (String × ℚ)
  player_form : String → Option ℚ
  stats_fetcher : CS2StatsFetcher

/-- `CS2ProjectionModel.__init__`. -/
def mkModel (f : CS2StatsFetcher) : CS2ProjectionModel :=
  { team_ratings := initialize_team_ratings
    player_form := fun _ => none
    stats_fetcher := f }

/-- `CS2ProjectionModel.get_team_rating`: exact dict lookup, then a
case-insensitive substring scan over the table, then the `"DEFAULT"` entry. -/
def get_team_rating (m : CS2ProjectionModel) (team_name : String) : ℚ :=
  match m.team_ratings.find? (fun p => p.1 == team_name) with
  | some p => p.2
  | none =>
    match m.team_ratings.find? (fun p =>
        substrB (upChars p.1) (upChars team_name) || substrB (upChars team_name) (upChars p.1)) with
    | some p => p.2
    | none => ((m.team_ratings.find? (fun p => p.1 == "DEFAULT")).map Prod.snd).getD 1

/-- `CS2ProjectionModel.calculate_player_form`; `sample` is the `gauss(1.0, 0.05)`
draw used when the player is not cached.  Returns the form and the updated model. -/
def calculate_player_form (m : CS2ProjectionModel) (player_name : String) (sample : ℚ) :
    ℚ × CS2ProjectionModel :=
  match m.player_form player_name with
  | some v => (v, m)
  | none =>
    let form := max (85/100) (min (115/100) sample)
    (form, { m with player_form := fun n => if n = player_name then some form else m.player_form n })

/-- `CS2ProjectionModel.calculate_opponent_adjustment`. -/
def calculate_opponent_adjustment (m : CS2ProjectionModel) (player_team opponent_team : String) : ℚ :=
  let player_rating := get_team_rating m player_team
  let opponent_rating := get_team_rating m opponent_team
  let relative_strength := player_rating / opponent_rating
  1 + (relative_strength - 1) * (25/100)

/-- The dictionary returned by `CS2ProjectionModel.generate_projection`. -/
structure ProjFragment where
  projected_value : ℚ
  confidence : ℚ
  difference : ℚ
  value_opportunity : Bool
  baseline : ℚ
  form_factor : ℚ
  opponent_factor : ℚ
deriving DecidableEq, Repr

/-- `CS2ProjectionModel.generate_projection`; `formSample` and `varSample`
are the two `gauss` draws.  Returns `none` on empty `dfs_lines`. -/
def generate_projection (m : CS2ProjectionModel)
    (player_name _team _opponent_team stat_type : String)
    (dfs_lines : List DFSLine) (formSample varSample : ℚ) :
    Option (ProjFragment × CS2ProjectionModel) :=
  if dfs_lines.isEmpty then none
  else
    let baseline := (dfs_lines.map DFSLine.line).sum / (dfs_lines.length : ℚ)
    let fm := calculate_player_form m player_name formSample
    let form_multiplier := fm.1
    let opponent_adjustment := calculate_opponent_adjustment m _team _opponent_team
    let projection := round1 (baseline * form_multiplier * opponent_adjustment * (1 + varSample))
    let diff_from_baseline := |projection - baseline|
    let threshold : ℚ := if stat_type == "kills" then 3 else 2
    let confidence := round1 (max 60 (min 95 (75 - (diff_from_baseline / threshold) * 10)))
    let difference := projection - baseline
    let value_opportunity : Bool := if threshold ≤ |difference| then true else false
    some ({ projected_value := projection
            confidence := confidence
            difference := round1 difference
            value_opportunity := value_opportunity
            baseline := baseline
            form_factor := form_multiplier
            opponent_factor := opponent_adjustment }, fm.2)

/-- A raw per-player prop handed from the aggregator to the model. -/
structure RawProp where
  match_id : String
  player_name : String
  team : String
  stat_type : String
  dfs_lines : List DFSLine
deriving DecidableEq, Repr

/-- An enhanced projection record built by `generate_match_projections`. -/
structure Projection where
  match_id : String
  player_name : String
  team : String
  stat_type : String
  projected_value : ℚ
  confidence : ℚ
  dfs_lines : List DFSLine
  value_opportunity : Bool
  difference : ℚ
deriving DecidableEq, Repr

/-- The enhanced projection record built from a prop and a model fragment. -/
def enhanceProj (match_id : String) (prop : RawProp) (frag : ProjFragment) : Projection :=
  { match_id := match_id
    player_name := prop.player_name
    team := prop.team
    stat_type := prop.stat_type
    projected_value := frag.projected_value
    confidence := frag.confidence
    dfs_lines := prop.dfs_lines
    value_opportunity := frag.value_opportunity
    difference := frag.difference }

/-- One loop iteration of `generate_match_projections`. -/
def gmpStep (match_id team1 team2 : String)
    (acc : List Projection × CS2ProjectionModel) (pr : RawProp × (ℚ × ℚ)) :
    List Projection × CS2ProjectionModel :=
  let prop := pr.1
  let opponent_team := if prop.team == team1 then team2 else team1
  match generate_projection acc.2 prop.player_name prop.team opponent_team
      prop.stat_type prop.dfs_lines pr.2.1 pr.2.2 with
  | some pd => (acc.1 ++ [enhanceProj match_id prop pd.1], pd.2)
  | none => acc

/-- `CS2ProjectionModel.generate_match_projections`: one pair of `gauss`
draws per prop (zipped), threading the player-form cache. -/
def generate_match_projections (m : CS2ProjectionModel)
    (match_id team1 team2 : String)
    (player_props : List RawProp) (samples : List (ℚ × ℚ)) :
    List Projection × CS2ProjectionModel :=
  (player_props.zip samples).foldl (gmpStep match_id team1 team2) ([], m)

/-! ## Line movement tracker (`backend/line_tracker.py`) -/

/-- One stored line-history observation. -/
structure LineEntry where
  timestamp : ℕ
  line : ℚ
  platform : String
deriving DecidableEq, Repr

instance : Inhabited LineEntry := ⟨⟨0, 0, ""⟩⟩

/-- A raw prop as seen by `record_lines`: every field may be absent. -/
structure TProp where
  player_name : Option String
  stat_type : Option String
  line : Option ℚ
  platform : Option String
deriving DecidableEq, Repr

/-- Python truthiness of an optional string. -/
def truthyS : Option String → Bool
  | some s => s ≠ ""
  | none => false

/-- Python truthiness of an optional number (`0` and `None` are falsy). -/
def truthyQ : Option ℚ → Bool
  | some q => q ≠ 0
  | none => false

/-- State of a `LineMovementTracker`; a missing key holds `[]`
(the Python code never keeps an empty list under a present key). -/
structure LineMovementTracker where
  line_history : String → String → List LineEntry
  current_lines : String → Option LineEntry

/-- `LineMovementTracker.__init__`. -/
def emptyTracker : LineMovementTracker :=
  { line_history := fun _ _ => [], current_lines := fun _ => none }

/-- The per-key trim in `record_lines`: keep only the last 50 entries. -/
def trim50 (h : List LineEntry) : List LineEntry :=
  if h.length > 50 then h.drop (h.length - 50) else h

/-- Recording a single prop inside `record_lines`. -/
def recordProp (timestamp : ℕ) (st : LineMovementTracker) (p : TProp) : LineMovementTracker :=
  if truthyS p.player_name && truthyS p.stat_type && truthyQ p.line then
    let player := p.player_name.getD ""
    let stat := p.stat_type.getD ""
    let l := p.line.getD 0
    let platform := p.platform.getD "prizepicks"
    let hkey := stat ++ "_" ++ platform
    let key := player ++ "_" ++ stat ++ "_" ++ platform
    let entry : LineEntry := ⟨timestamp, l, platform⟩
    { line_history := fun a b =>
        if a = player then
          if b = hkey then trim50 (st.line_history player hkey ++ [entry])
          else st.line_history a b
        else st.line_history a b
      current_lines := fun k => if k = key then some entry else st.current_lines k }
  else st

/-- `LineMovementTracker.record_lines` (one call, one shared timestamp). -/
def record_lines (st : LineMovementTracker) (props : List TProp) (timestamp : ℕ) :
    LineMovementTracker :=
  props.foldl (recordProp timestamp) st

/-- The record returned by `get_line_movement`. -/
structure LineMovement where
  current_line : ℚ
  previous_line : Option ℚ
  movement : ℚ
  movement_direction : String
  is_significant : Bool
  history_count : ℕ
  first_seen : ℕ
  last_updated : ℕ
deriving DecidableEq, Repr

/-- Last two elements of `a :: b :: rest` (as `(previous, current)`). -/
def lastTwoD (a b : LineEntry) : List LineEntry → LineEntry × LineEntry
  | [] => (a, b)
  | c :: rest => lastTwoD b c rest

/-- `LineMovementTracker.get_line_movement`. -/
def get_line_movement (st : LineMovementTracker) (player_name stat_type platform : String) :
    Option LineMovement :=
  let history := st.line_history player_name (stat_type ++ "_" ++ platform)
  match history with
  | [] => none
  | [e] =>
      some { current_line := e.line, previous_line := none, movement := 0
             movement_direction := "new", is_significant := false
             history_count := 1, first_seen := e.timestamp, last_updated := e.timestamp }
  | e0 :: e1 :: rest =>
      let pc := lastTwoD e0 e1 rest
      let current := pc.2
      let previous := pc.1
      let movement := current.line - previous.line
      let threshold : ℚ := if substrB "kill".toList (lowChars stat_type) then 3/2 else 1
      let is_significant : Bool := if threshold ≤ |movement| then true else false
      let direction : String :=
        if movement > 1/2 then "up" else if movement < -(1/2) then "down" else "stable"
      some { current_line := current.line, previous_line := some previous.line
             movement := round1 movement, movement_direction := direction
             is_significant := is_significant, history_count := rest.length + 2
             first_seen := e0.timestamp, last_updated := current.timestamp }

/-! ## Prop aggregator (`backend/data_aggregator.py`, `_find_matching_props`) -/

/-- A raw scraped prop record; the code reads `team` and `game_id` with
default `''`, so absence is modelled by the empty string. -/
structure AggProp where
  player_name : String
  stat_type : String
  line : ℚ
  team : String
  game_id : String
deriving DecidableEq, Repr

/-- The two platform lines collected for one stat type. -/
structure StatLines where
  prizepicks : Option ℚ
  underdog : Option ℚ
deriving DecidableEq, Repr

/-- Per-player aggregate: team/game_id captured at first sight, plus the
stat map in insertion order. -/
structure PlayerData where
  team : String
  game_id : String
  stats : List (String × StatLines)
deriving DecidableEq, Repr

/-- Insertion-ordered dict update: create `k ↦ d` at the end if absent,
then apply `f` to the entry (Python creates then mutates). -/
def updA {V : Type} (l : List (String × V)) (k : String) (d : V) (f : V → V) :
    List (String × V) :=
  match l with
  | [] => [(k, f d)]
  | (k', v) :: rest => if k' = k then (k', f v) :: rest else (k', v) :: updA rest k d f

/-- Write the PrizePicks line of a stat entry. -/
def setPP (l : ℚ) (sl : StatLines) : StatLines := { sl with prizepicks := some l }

/-- Write the Underdog line of a stat entry. -/
def setUD (l : ℚ) (sl : StatLines) : StatLines := { sl with underdog := some l }

/-- Write one stat entry of a player's aggregate. -/
def setStat (stat : String) (f : StatLines → StatLines) (pd : PlayerData) : PlayerData :=
  { pd with stats := updA pd.stats stat ⟨none, none⟩ f }

/-- First loop of `_find_matching_props`: fold one PrizePicks prop in. -/
def addPP (acc : List (String × PlayerData)) (p : AggProp) : List (String × PlayerData) :=
  updA acc p.player_name ⟨p.team, p.game_id, []⟩ (setStat p.stat_type (setPP p.line))

/-- Second loop: fold one Underdog prop in. -/
def addUD (acc : List (String × PlayerData)) (p : AggProp) : List (String × PlayerData) :=
  updA acc p.player_name ⟨p.team, "", []⟩ (setStat p.stat_type (setUD p.line))

/-- The `player_props` dict built from both platforms' raw props. -/
def buildPlayerProps (pp ud : List AggProp) : List (String × PlayerData) :=
  ud.foldl addUD (pp.foldl addPP [])

/-- `normalize_team_name`: lower-case and strip spaces, hyphens, underscores. -/
def normalize_team_name (name : String) : List Char :=
  (lowChars name).filter (fun c => !(c == ' ' || c == '-' || c == '_'))

/-- The fuzzy team test used throughout: either normalized name contains the other. -/
def teamsMatchB (a b : List Char) : Bool := substrB a b || substrB b a

/-- The team-matching phase: players whose non-empty reported team fuzzily
matches either of the match's teams, in dict order. -/
def computeMatchedPlayers (playerProps : List (String × PlayerData))
    (t1n t2n : List Char) : List String :=
  (playerProps.filter (fun q =>
    q.2.team ≠ "" &&
    (teamsMatchB (normalize_team_name q.2.team) t1n ||
     teamsMatchB (normalize_team_name q.2.team) t2n))).map Prod.fst

/-- `players_per_match`: `max(10, total_players // 10)` (10 when there are none). -/
def chunkSize (total_players : ℕ) : ℕ :=
  if total_players > 0 then max 10 (total_players / 10) else 10

/-- The slice of the global player list handed to the `i`-th fallback match. -/
def fallbackChunk (all_players : List String) (i : ℕ) : List String :=
  ((all_players.drop (i * chunkSize all_players.length)).take (chunkSize all_players.length))

/-- Module state behind the fallback distribution: the lazily captured
global player list and the per-match counter. -/
structure AggState where
  all_players : Option (List String)
  match_counter : ℕ
deriving DecidableEq, Repr

/-- The team written on an emitted record: fuzzy match against team1, then
team2, else an even split of the matched list by position. -/
def playerTeamChoice (team1 team2 : String) (matched : List String)
    (player prop_team : String) : String :=
  let ptn := normalize_team_name prop_team
  let t1n := normalize_team_name team1
  let t2n := normalize_team_name team2
  if substrB ptn t1n || substrB t1n ptn then team1
  else if substrB ptn t2n || substrB t2n ptn then team2
  else if 2 * matched.indexOf player < matched.length then team1 else team2

/-- The truthiness-guarded `dfs_lines` entry for one platform. -/
def lineList (platform stat : String) (o : Option ℚ) : List DFSLine :=
  match o with
  | some l => if l = 0 then [] else [⟨platform, stat, l, "Map1+Map2"⟩]
  | none => []

/-- The records the inner stat loop contributes for one stat entry:
one record when at least one platform line is truthy, none otherwise. -/
def statRecord (match_id player team : String) (q : String × StatLines) : List RawProp :=
  if truthyQ q.2.prizepicks || truthyQ q.2.underdog then
    [{ match_id := match_id, player_name := player, team := team
       stat_type := q.1
       dfs_lines := lineList "prizepicks" q.1 q.2.prizepicks ++
                    lineList "underdog" q.1 q.2.underdog }]
  else []

/-- The inner stat loop: one record per stat type with at least one truthy line. -/
def statRecords (match_id player team : String) (stats : List (String × StatLines)) :
    List RawProp :=
  stats.foldl (fun acc q => acc ++ statRecord match_id player team q) []

/-- The records one matched player contributes (none when the player has
dropped out of the current `player_props` dict). -/
def playerBlock (match_id team1 team2 : String)
    (playerProps : List (String × PlayerData)) (matched : List String)
    (player : String) : List RawProp :=
  match playerProps.find? (fun q => q.1 == player) with
  | none => []
  | some q =>
      statRecords match_id player (playerTeamChoice team1 team2 matched player q.2.team)
        q.2.stats

/-- The record-building loop over the matched players. -/
def emitRecords (match_id team1 team2 : String)
    (playerProps : List (String × PlayerData)) (matched : List String) : List RawProp :=
  matched.foldl (fun acc player =>
    acc ++ playerBlock match_id team1 team2 playerProps matched player) []

/-- The matched-player list `_find_matching_props` ends up using: the
team-matched players, or the next fallback chunk when none matched. -/
def matchedPlayersOf (st : AggState) (team1 team2 : String) (pp ud : List AggProp) :
    List String :=
  let playerProps := buildPlayerProps pp ud
  let byTeam := computeMatchedPlayers playerProps
      (normalize_team_name team1) (normalize_team_name team2)
  if byTeam.isEmpty then
    fallbackChunk (st.all_players.getD (playerProps.map Prod.fst)) st.match_counter
  else byTeam

/-- `CS2DataAggregator._find_matching_props`: emitted records plus the new
fallback state. -/
def find_matching_props (st : AggState) (match_id team1 team2 : String)
    (pp ud : List AggProp) : List RawProp × AggState :=
  let playerProps := buildPlayerProps pp ud
  let byTeam := computeMatchedPlayers playerProps
      (normalize_team_name team1) (normalize_team_name team2)
  if byTeam.isEmpty then
    let all := st.all_players.getD (playerProps.map Prod.fst)
    (emitRecords match_id team1 team2 playerProps (fallbackChunk all st.match_counter),
     ⟨some all, st.match_counter + 1⟩)
  else
    (emitRecords match_id team1 team2 playerProps byTeam, st)

/-! ## Auxiliary definitions for the claim checks -/

/-- A stats provider with real data disabled (the default configuration). -/
def noProvider : CS2StatsFetcher := ⟨false, fun _ => none, fun _ => none⟩

/-- An enabled stats provider answering `0.9` for every player and team. -/
def providerNine : CS2StatsFetcher := ⟨true, fun _ => some (9/10), fun _ => some (9/10)⟩

/-- A model whose form cache already holds `s1mple ↦ 1`. -/
def modelS1 : CS2ProjectionModel :=
  { mkModel noProvider with player_form := fun n => if n = "s1mple" then some 1 else none }

/-- Team decision rule as the (amended) specification words it: fuzzy
substring match against team1 then team2 on normalized names — an empty
reported team always matches team1 — and otherwise an even positional
split of the match roster. -/
def teamChoiceSpec (team1 team2 : String) (roster : List String)
    (player prop_team : String) : String :=
  if teamsMatchB (normalize_team_name prop_team) (normalize_team_name team1) then team1
  else if teamsMatchB (normalize_team_name prop_team) (normalize_team_name team2) then team2
  else if 2 * roster.indexOf player < roster.length then team1 else team2

/-- The history entry a prop contributes to a given tracker key, if any. -/
def entryFor (timestamp : ℕ) (player hkey : String) (p : TProp) : Option LineEntry :=
  if (truthyS p.player_name && truthyS p.stat_type && truthyQ p.line) = true ∧
      p.player_name.getD "" = player ∧
      p.stat_type.getD "" ++ "_" ++ p.platform.getD "prizepicks" = hkey then
    some ⟨timestamp, p.line.getD 0, p.platform.getD "prizepicks"⟩
  else none

/-- The conceptual unbounded log of one tracker key over a run of
`record_lines` calls (each call = one timestamp plus its prop batch). -/
def logFor (player hkey : String) (calls : List (ℕ × List TProp)) : List LineEntry :=
  calls.foldl (fun acc c => acc ++ c.2.filterMap (entryFor c.1 player hkey)) []

/-- Run a sequence of `record_lines` calls. -/
def runCalls (st : LineMovementTracker) (calls : List (ℕ × List TProp)) :
    LineMovementTracker :=
  calls.foldl (fun s c => record_lines s c.2 c.1) st

/-- Two no-team props: input for the fallback team-assignment checks. -/
def ppNoTeam : List AggProp :=
  [⟨"alpha", "kills", 30, "", ""⟩, ⟨"beta", "kills", 28, "", ""⟩]

/-- A single prop whose only reported line is `0.0`. -/
def ppZeroLine : List AggProp := [⟨"ace", "kills", 0, "NaVi", ""⟩]

/-- Concrete prop for the aggregation-level witness runs. -/
def propW : RawProp :=
  ⟨"m2", "s1mple", "ENCE", "kills", [⟨"prizepicks", "kills", 40, "Map1+Map2"⟩]⟩

/-- The record the witness run emits for `propW`. -/
def recW : Projection :=
  ⟨"m2", "s1mple", "ENCE", "kills", 40, 75,
    [⟨"prizepicks", "kills", 40, "Map1+Map2"⟩], false, 0⟩

/-- Tracker state after recording lines 10 and 10.25 for one kills key. -/
def st6 : LineMovementTracker :=
  record_lines emptyTracker
    [⟨some "p", some "kills", some 10, some "prizepicks"⟩,
     ⟨some "p", some "kills", some (41/4), some "prizepicks"⟩] 0

/-- Tracker state after recording lines 10 and 11.7 for one kills key. -/
def st6w : LineMovementTracker :=
  record_lines emptyTracker
    [⟨some "q", some "kills", some 10, some "prizepicks"⟩,
     ⟨some "q", some "kills", some (117/10), some "prizepicks"⟩] 0

/-- Twenty-five distinct player names: chunk size 10, three chunks. -/
def ps25 : List String :=
  ["a01", "a02", "a03", "a04", "a05", "a06", "a07", "a08", "a09", "a10",
   "a11", "a12", "a13", "a14", "a15", "a16", "a17", "a18", "a19", "a20",
   "a21", "a22", "a23", "a24", "a25"]

/-- One team-matched prop for the C3 witness run. -/
def ppTeamed : List AggProp := [⟨"dev1ce", "kills", 25, "Astralis", ""⟩]

/-- The record the C3 witness run emits. -/
def recTeamed : RawProp :=
  ⟨"w3", "dev1ce", "Astralis", "kills", [⟨"prizepicks", "kills", 25, "Map1+Map2"⟩]⟩

/-- One player reporting a truthy kills line and a zero headshots line. -/
def ppMixed : List AggProp :=
  [⟨"NiKo", "kills", 42, "G2", ""⟩, ⟨"NiKo", "headshots", 0, "G2", ""⟩]

/-! ## Claim theorems -/

/-- Claim C9: `get_team_rating` on the empty string returns `1.15`, the
rating of the first entry of the ratings table ("Navi"), because the empty
upper-cased name is a substring of every table key — not the documented
neutral default `1.0`. -/
theorem thmC9_empty_team_rating :
    get_team_rating (mkModel noProvider) "" = 115/100 ∧
    initialize_team_ratings.head? = some ("Navi", 115/100) ∧
    (115/100 : ℚ) ≠ 1 :=
  ⟨rfl, rfl, by norm_num⟩

/-- Claim C1 (code bug): the injected stats provider never influences the
model's form and rating lookups.  Both `get_team_rating` and
`calculate_player_form` are invariant under replacing the fetcher, and on
the concrete input `"Navi"` an enabled provider answering `0.9` is ignored
in favour of the static table value `1.15` (and the synthetic clamp value
`1` for player form). -/
theorem thmC1_provider_ignored :
    (∀ (m : CS2ProjectionModel) (f : CS2StatsFetcher) (name : String),
      get_team_rating { m with stats_fetcher := f } name = get_team_rating m name) ∧
    (∀ (m : CS2ProjectionModel) (f : CS2StatsFetcher) (name : String) (s : ℚ),
      (calculate_player_form { m with stats_fetcher := f } name s).1 =
        (calculate_player_form m name s).1) ∧
    fetch_team_rating providerNine "Navi" = some (9/10) ∧
    fetch_player_recent_form providerNine "s1mple" = some (9/10) ∧
    get_team_rating (mkModel providerNine) "Navi" = 115/100 ∧
    (calculate_player_form (mkModel providerNine) "s1mple" 1).1 = 1 ∧
    (115/100 : ℚ) ≠ 9/10 ∧ (1 : ℚ) ≠ 9/10 := by
  refine ⟨fun m f name => rfl, fun m f name s => ?_, rfl, rfl, rfl, ?_, by norm_num, by norm_num⟩
  · cases hm : m.player_form name <;> simp [calculate_player_form, hm]
  · show max (85/100) (min (115/100) 1) = 1
    norm_num

/-- Claim C3 counterexample: with two fallback-assigned players whose props
carry no team name, the emitted records give *both* players team1
("NaVi") — the even split demanded by the claim would give the
second player team2 ("FaZe") — because the empty normalized team name is a
substring of every team name. -/
theorem thmC3_counterexample :
    ((find_matching_props ⟨none, 0⟩ "m1" "NaVi" "FaZe" ppNoTeam []).1.map
        (fun r => (r.player_name, r.team))) = [("alpha", "NaVi"), ("beta", "NaVi")] ∧
    ("NaVi" : String) ≠ "FaZe" := by
  constructor
  · rfl
  · decide

/-- Claim C5 counterexample: player "ace" reports the stat type "kills"
on PrizePicks, but its line is `0.0`, which Python truthiness treats as
missing — so no record for "ace" is emitted at all, and the emitted
stat-type set `{}` differs from the reported union `{kills}`. -/
theorem thmC5_counterexample :
    (find_matching_props ⟨none, 0⟩ "m1" "NaVi" "FaZe" ppZeroLine []).1 = [] ∧
    (buildPlayerProps ppZeroLine []).find? (fun q => q.1 == "ace") =
      some ("ace", ⟨"NaVi", "", [("kills", ⟨some 0, none⟩)]⟩) := by
  constructor
  · rfl
  · rfl

/-- Folding with list append equals the join of the mapped blocks. -/
lemma foldl_append_acc {α β : Type} (g : α → List β) (l : List α) (acc : List β) :
    l.foldl (fun a x => a ++ g x) acc = acc ++ (l.map g).flatten := by
  induction l generalizing acc with
  | nil => simp
  | cons x xs ih => simp [ih, List.append_assoc]

/-- `statRecords` as a join of per-stat blocks. -/
lemma statRecords_eq (mid p t : String) (stats : List (String × StatLines)) :
    statRecords mid p t stats = (stats.map (statRecord mid p t)).flatten :=
  foldl_append_acc _ _ _

/-- `emitRecords` as a join of per-player blocks. -/
lemma emitRecords_eq (mid t1 t2 : String) (props : List (String × PlayerData))
    (matched : List String) :
    emitRecords mid t1 t2 props matched =
      (matched.map (playerBlock mid t1 t2 props matched)).flatten :=
  foldl_append_acc _ _ _

/-- Every record a stat entry contributes carries the fed-in identity fields. -/
lemma mem_statRecord {rec : RawProp} {mid p t : String} {q : String × StatLines}
    (h : rec ∈ statRecord mid p t q) :
    (truthyQ q.2.prizepicks || truthyQ q.2.underdog) = true ∧
    rec = { match_id := mid, player_name := p, team := t, stat_type := q.1
            dfs_lines := lineList "prizepicks" q.1 q.2.prizepicks ++
                         lineList "underdog" q.1 q.2.underdog } := by
  unfold statRecord at h
  split at h
  · next hc => exact ⟨hc, by simpa using h⟩
  · simp at h

/-- Every record a player block contributes names that player and carries
the code's team decision for it. -/
lemma mem_playerBlock {rec : RawProp} {mid t1 t2 player : String}
    {props : List (String × PlayerData)} {matched : List String}
    (h : rec ∈ playerBlock mid t1 t2 props matched player) :
    ∃ pd : PlayerData,
      props.find? (fun q => q.1 == player) = some (player, pd) ∧
      rec.player_name = player ∧
      rec.team = playerTeamChoice t1 t2 matched player pd.team := by
  unfold playerBlock at h
  split at h
  · simp at h
  · next q hq =>
    obtain ⟨q1, q2⟩ := q
    have hkey : q1 = player := by
      have := List.find?_some hq
      simpa using this
    subst hkey
    refine ⟨q2, hq, ?_, ?_⟩
    · rw [statRecords_eq] at h
      obtain ⟨blk, hblk, hrec⟩ := List.mem_flatten.mp h
      obtain ⟨s, _, rfl⟩ := List.mem_map.mp hblk
      obtain ⟨-, rfl⟩ := mem_statRecord hrec
      rfl
    · rw [statRecords_eq] at h
      obtain ⟨blk, hblk, hrec⟩ := List.mem_flatten.mp h
      obtain ⟨s, _, rfl⟩ := List.mem_map.mp hblk
      obtain ⟨-, rfl⟩ := mem_statRecord hrec
      rfl

/-- The records of `_find_matching_props` are exactly those emitted for the
matched-player list it settles on. -/
lemma find_matching_props_fst (st : AggState) (mid t1 t2 : String) (pp ud : List AggProp) :
    (find_matching_props st mid t1 t2 pp ud).1 =
      emitRecords mid t1 t2 (buildPlayerProps pp ud) (matchedPlayersOf st t1 t2 pp ud) := by
  simp only [find_matching_props, matchedPlayersOf]
  split <;> rfl

/-- The empty needle is a substring of everything (Python `'' in s`). -/
lemma substrB_nil (l : List Char) : substrB [] l = true := by
  cases l <;> simp [substrB, listStarts]

/-- The spec-side and code-side team decisions coincide. -/
lemma teamChoiceSpec_eq (t1 t2 : String) (roster : List String) (player pt : String) :
    teamChoiceSpec t1 t2 roster player pt = playerTeamChoice t1 t2 roster player pt := rfl

/-- Claim C3 (amended): every emitted record's team comes from normalized
substring matching of the player's reported team against team1 then team2,
falling back to an even positional split of the matched list only when a
non-empty team matches neither side; a record whose player reports no team
name always gets team1, because the empty normalized name substring-matches
team1 first. -/
theorem thmC3_team_assignment (st : AggState) (mid t1 t2 : String) (pp ud : List AggProp) :
    (∀ rec ∈ (find_matching_props st mid t1 t2 pp ud).1,
      ∃ pd : PlayerData,
        (buildPlayerProps pp ud).find? (fun q => q.1 == rec.player_name) =
          some (rec.player_name, pd) ∧
        rec.team = teamChoiceSpec t1 t2 (matchedPlayersOf st t1 t2 pp ud)
          rec.player_name pd.team) ∧
    (∀ (roster : List String) (player : String),
      teamChoiceSpec t1 t2 roster player "" = t1) := by
  constructor
  · intro rec hrec
    rw [find_matching_props_fst, emitRecords_eq] at hrec
    obtain ⟨blk, hblk, hrecblk⟩ := List.mem_flatten.mp hrec
    obtain ⟨player, -, rfl⟩ := List.mem_map.mp hblk
    obtain ⟨pd, hfind, hname, hteam⟩ := mem_playerBlock hrecblk
    subst hname
    exact ⟨pd, hfind, by rw [teamChoiceSpec_eq]; exact hteam⟩
  · intro roster player
    unfold teamChoiceSpec
    rw [if_pos]
    show teamsMatchB (normalize_team_name "") (normalize_team_name t1) = true
    have : normalize_team_name "" = [] := rfl
    rw [this]
    simp [teamsMatchB, substrB_nil]

/-- `rhe` returns either the floor or the floor plus one, and the latter
only when the fractional part is at least one half. -/
lemma rhe_mem (q : ℚ) : rhe q = ⌊q⌋ ∨ (rhe q = ⌊q⌋ + 1 ∧ 1/2 ≤ q - (⌊q⌋ : ℚ)) := by
  unfold rhe
  split_ifs with h1 h2 h3
  · exact Or.inl rfl
  · exact Or.inr ⟨rfl, le_of_lt h2⟩
  · exact Or.inl rfl
  · exact Or.inr ⟨rfl, le_of_not_lt h1⟩

/-- Rounding to one decimal keeps a value inside `[60, 95]`. -/
lemma round1_mem_6095 {q : ℚ} (h1 : 60 ≤ q) (h2 : q ≤ 95) :
    60 ≤ round1 q ∧ round1 q ≤ 95 := by
  have hf1 : (600 : ℤ) ≤ ⌊q * 10⌋ := by
    rw [Int.le_floor]
    push_cast
    linarith
  have hfle : (⌊q * 10⌋ : ℚ) ≤ q * 10 := Int.floor_le _
  have hf2 : ⌊q * 10⌋ ≤ (950 : ℤ) := by
    have : (⌊q * 10⌋ : ℚ) ≤ 950 := by linarith
    exact_mod_cast this
  unfold round1
  rcases rhe_mem (q * 10) with h | ⟨h, hhalf⟩
  · rw [h]
    constructor
    · rw [le_div_iff (by norm_num : (0:ℚ) < 10)]
      have : (600 : ℚ) ≤ (⌊q * 10⌋ : ℚ) := by exact_mod_cast hf1
      linarith
    · rw [div_le_iff (by norm_num : (0:ℚ) < 10)]
      have : (⌊q * 10⌋ : ℚ) ≤ 950 := by exact_mod_cast hf2
      linarith
  · rw [h]
    have hlt : ⌊q * 10⌋ ≤ (949 : ℤ) := by
      have : (⌊q * 10⌋ : ℚ) ≤ 950 - 1/2 := by linarith
      have : (⌊q * 10⌋ : ℚ) < 950 := by linarith
      have : ⌊q * 10⌋ < (950 : ℤ) := by exact_mod_cast this
      omega
    constructor
    · rw [le_div_iff (by norm_num : (0:ℚ) < 10)]
      have : (600 : ℚ) ≤ (⌊q * 10⌋ : ℚ) := by exact_mod_cast hf1
      push_cast
      linarith
    · rw [div_le_iff (by norm_num : (0:ℚ) < 10)]
      have : (⌊q * 10⌋ : ℚ) ≤ 949 := by exact_mod_cast hlt
      push_cast
      linarith

/-- Claim C7: every projection `generate_projection` emits has its
confidence clamped into `[60, 95]`, whatever the sampled variance, player
form and team ratings were. -/
theorem thmC7_confidence_bounds (m : CS2ProjectionModel)
    (player_name team opponent_team stat_type : String)
    (dfs_lines : List DFSLine) (formSample varSample : ℚ)
    (frag : ProjFragment) (m' : CS2ProjectionModel)
    (h : generate_projection m player_name team opponent_team stat_type dfs_lines
          formSample varSample = some (frag, m')) :
    60 ≤ frag.confidence ∧ frag.confidence ≤ 95 := by
  unfold generate_projection at h
  split at h
  · exact absurd h (by simp)
  · obtain ⟨hfrag, -⟩ := Prod.mk.injEq .. ▸ Option.some.inj h
    subst hfrag
    exact round1_mem_6095 (le_max_left _ _) (max_le (by norm_num) (min_le_left _ _))

/-- A fully concrete projection run: baseline 40, cached form 1, equal
team ratings and zero sampled variance give projection 40 and confidence 75. -/
lemma eval_projection_40 :
    generate_projection modelS1 "s1mple" "ENCE" "ENCE" "kills"
        [⟨"prizepicks", "kills", 40, "Map1+Map2"⟩] 2 0 =
      some (⟨40, 75, 0, false, 40, 1, 1⟩, modelS1) := by
  have hform : calculate_player_form modelS1 "s1mple" 2 = (1, modelS1) := rfl
  have hadj : calculate_opponent_adjustment modelS1 "ENCE" "ENCE" = 1 := by
    have h : calculate_opponent_adjustment modelS1 "ENCE" "ENCE" =
        1 + ((1 : ℚ) / 1 - 1) * (25/100) := rfl
    rw [h]; norm_num
  simp only [generate_projection, hform, hadj]
  norm_num [round1, rhe, ProjFragment.mk.injEq]

/-- Claim C7 witness: a concrete projection (baseline 40, all factors
neutral) evaluates to confidence 75, inside the bounds. -/
theorem thmC7_witness :
    generate_projection modelS1 "s1mple" "ENCE" "ENCE" "kills"
        [⟨"prizepicks", "kills", 40, "Map1+Map2"⟩] 2 0 =
      some (⟨40, 75, 0, false, 40, 1, 1⟩, modelS1) ∧
    ((60 : ℚ) ≤ 75 ∧ (75 : ℚ) ≤ 95) :=
  ⟨eval_projection_40,
    thmC7_confidence_bounds _ _ _ _ _ _ _ _ _ _ eval_projection_40⟩

/-- Any property of single-prop projections lifts to every record of the
`generate_match_projections` fold. -/
lemma gmp_rec_shape (mid t1 t2 : String) (l : List (RawProp × (ℚ × ℚ)))
    (acc : List Projection × CS2ProjectionModel) (P : Projection → Prop)
    (hacc : ∀ r ∈ acc.1, P r)
    (hstep : ∀ (m m2 : CS2ProjectionModel) (prop : RawProp) (opp : String) (fs vs : ℚ)
      (frag : ProjFragment),
      generate_projection m prop.player_name prop.team opp prop.stat_type prop.dfs_lines
          fs vs = some (frag, m2) →
      P (enhanceProj mid prop frag)) :
    ∀ r ∈ (l.foldl (gmpStep mid t1 t2) acc).1, P r := by
  induction l generalizing acc with
  | nil => simpa using hacc
  | cons x xs ih =>
    intro r hr
    rw [List.foldl_cons] at hr
    refine ih _ ?_ r hr
    intro r' hr'
    rcases hgp : generate_projection acc.2 x.1.player_name x.1.team
        (if x.1.team == t1 then t2 else t1) x.1.stat_type x.1.dfs_lines x.2.1 x.2.2 with
      _ | pd
    · simp only [gmpStep, hgp] at hr'
      exact hacc r' hr'
    · simp only [gmpStep, hgp, List.mem_append, List.mem_singleton] at hr'
      rcases hr' with h | h
      · exact hacc r' h
      · subst h
        exact hstep acc.2 pd.2 x.1 _ x.2.1 x.2.2 pd.1 hgp

/-- A boolean-valued `if` equals `true` exactly when its condition holds. -/
lemma ite_true_false_iff (c : Prop) [Decidable c] : ((if c then true else false) = true) ↔ c := by
  split_ifs with h <;> simp [h]

/-- The value-opportunity flag and difference field of a projection
fragment, in terms of its own projected value and baseline. -/
lemma generate_projection_flags (m : CS2ProjectionModel) (pn tm opp stt : String)
    (lines : List DFSLine) (fs vs : ℚ) (frag : ProjFragment) (m2 : CS2ProjectionModel)
    (h : generate_projection m pn tm opp stt lines fs vs = some (frag, m2)) :
    (frag.value_opportunity = true ↔
      (if stt = "kills" then (3:ℚ) else 2) ≤
        |frag.projected_value - (lines.map DFSLine.line).sum / (lines.length : ℚ)|) ∧
    frag.difference =
      round1 (frag.projected_value - (lines.map DFSLine.line).sum / (lines.length : ℚ)) := by
  unfold generate_projection at h
  split at h
  · exact absurd h (by simp)
  · obtain ⟨hfrag, -⟩ := Prod.mk.injEq .. ▸ Option.some.inj h
    subst hfrag
    have hT : (if (stt == "kills") then (3:ℚ) else 2) =
        (if stt = "kills" then (3:ℚ) else 2) := by
      by_cases hs : stt = "kills" <;> simp [hs]
    refine ⟨?_, rfl⟩
    dsimp only
    rw [hT]
    exact ite_true_false_iff _

/-- Claim C2: for every record an aggregation pass emits through
`generate_match_projections`, the value-opportunity flag holds exactly when
the projected value diverges from the average of the record's own DFS lines
by at least the stat threshold (3 for kills, 2 otherwise), and the stored
difference field is that divergence rounded to one decimal. -/
theorem thmC2_value_opportunity (m : CS2ProjectionModel) (mid t1 t2 : String)
    (props : List RawProp) (samples : List (ℚ × ℚ)) :
    ∀ rec ∈ (generate_match_projections m mid t1 t2 props samples).1,
      (rec.value_opportunity = true ↔
        (if rec.stat_type = "kills" then (3:ℚ) else 2) ≤
          |rec.projected_value -
            (rec.dfs_lines.map DFSLine.line).sum / (rec.dfs_lines.length : ℚ)|) ∧
      rec.difference =
        round1 (rec.projected_value -
          (rec.dfs_lines.map DFSLine.line).sum / (rec.dfs_lines.length : ℚ)) := by
  unfold generate_match_projections
  refine gmp_rec_shape mid t1 t2 _ _ _ (by simp) ?_
  intro m1 m2 prop opp fs vs frag hgp
  have hf := generate_projection_flags _ _ _ _ _ _ _ _ _ _ hgp
  simpa [enhanceProj] using hf

/-- Claim C2 witness: a concrete one-prop aggregation pass emits exactly
`recW`, whose flag and difference satisfy the invariant. -/
theorem thmC2_witness :
    recW ∈ (generate_match_projections modelS1 "m2" "ENCE" "ENCE" [propW] [(2, 0)]).1 ∧
    ((recW.value_opportunity = true ↔
      (if recW.stat_type = "kills" then (3:ℚ) else 2) ≤
        |recW.projected_value -
          (recW.dfs_lines.map DFSLine.line).sum / (recW.dfs_lines.length : ℚ)|) ∧
    recW.difference =
      round1 (recW.projected_value -
        (recW.dfs_lines.map DFSLine.line).sum / (recW.dfs_lines.length : ℚ))) := by
  have hg : generate_match_projections modelS1 "m2" "ENCE" "ENCE" [propW] [(2, 0)] =
      ([recW], modelS1) := by
    simp [generate_match_projections, propW, gmpStep, eval_projection_40, enhanceProj, recW]
  have hmem : recW ∈ (generate_match_projections modelS1 "m2" "ENCE" "ENCE"
      [propW] [(2, 0)]).1 := by
    rw [hg]
    exact List.mem_singleton_self _
  exact ⟨hmem, thmC2_value_opportunity modelS1 "m2" "ENCE" "ENCE" [propW] [(2, 0)] recW hmem⟩

/-- `lastTwoD` really returns the final two elements. -/
lemma lastTwoD_append : ∀ (pre : List LineEntry) (a b p c : LineEntry) (l : List LineEntry),
    a :: b :: l = pre ++ [p, c] → lastTwoD a b l = (p, c) := by
  intro pre
  induction pre with
  | nil =>
    intro a b p c l h
    simp only [List.nil_append, List.cons.injEq] at h
    obtain ⟨rfl, rfl, rfl⟩ := h
    rfl
  | cons x pre' ih =>
    intro a b p c l h
    rw [List.cons_append, List.cons.injEq] at h
    obtain ⟨rfl, h2⟩ := h
    cases l with
    | nil =>
      exfalso
      have := congrArg List.length h2
      simp at this
    | cons z l' =>
      rw [lastTwoD]
      exact ih b z p c l' h2

/-- Claim C6 (amended): `get_line_movement` returns `None` for a key never
recorded; a "new" record for a single entry; and for two or more entries a
record determined by the two most recent entries alone — the returned
movement is the last-minus-previous line difference *rounded to one
decimal*, while direction (up / down / stable at ±0.5) and significance
(threshold 1.5 for stat keys containing "kill", 1.0 otherwise) are computed
on the unrounded difference. -/
theorem thmC6_movement (st : LineMovementTracker) (player stat platform : String)
    (pre : List LineEntry) (prev cur : LineEntry)
    (h : st.line_history player (stat ++ "_" ++ platform) = pre ++ [prev, cur]) :
    get_line_movement st player stat platform =
      some { current_line := cur.line
             previous_line := some prev.line
             movement := round1 (cur.line - prev.line)
             movement_direction :=
               if cur.line - prev.line > 1/2 then "up"
               else if cur.line - prev.line < -(1/2) then "down" else "stable"
             is_significant :=
               if (if substrB "kill".toList (lowChars stat) then (3:ℚ)/2 else 1) ≤
                   |cur.line - prev.line| then true else false
             history_count := pre.length + 2
             first_seen := ((pre ++ [prev, cur]).headI).timestamp
             last_updated := cur.timestamp } ∧
    (∀ (st2 : LineMovementTracker) (p2 s2 pf2 : String),
      st2.line_history p2 (s2 ++ "_" ++ pf2) = [] →
      get_line_movement st2 p2 s2 pf2 = none) ∧
    (∀ (st2 : LineMovementTracker) (p2 s2 pf2 : String) (e : LineEntry),
      st2.line_history p2 (s2 ++ "_" ++ pf2) = [e] →
      get_line_movement st2 p2 s2 pf2 =
        some ⟨e.line, none, 0, "new", false, 1, e.timestamp, e.timestamp⟩) := by
  refine ⟨?_, ?_, ?_⟩
  · cases pre with
    | nil =>
      simp only [List.nil_append] at h
      simp [get_line_movement, h, lastTwoD]
    | cons x pre' =>
      rcases hl : pre' ++ [prev, cur] with _ | ⟨y, l⟩
      · exact absurd hl (by simp)
      · rw [List.cons_append, hl] at h
        have hlt := lastTwoD_append (x :: pre') x y prev cur l
          (by rw [List.cons_append, ← hl])
        have hlen : l.length = pre'.length + 1 := by
          have := congrArg List.length hl
          simp at this
          omega
        simp [get_line_movement, h, hlt, hlen, List.headI]
  · intro st2 p2 s2 pf2 h2
    simp [get_line_movement, h2]
  · intro st2 p2 s2 pf2 e h2
    simp [get_line_movement, h2]

/-- The two-entry history `st6` actually stores. -/
lemma st6_history :
    st6.line_history "p" ("kills" ++ "_" ++ "prizepicks") =
      [⟨0, 10, "prizepicks"⟩, ⟨0, 41/4, "prizepicks"⟩] := by
  have h1 : truthyQ (some ((41:ℚ)/4)) = true := by
    simp [truthyQ]
  simp [st6, record_lines, recordProp, truthyS, truthyQ, trim50, emptyTracker, h1]

/-- Claim C6 counterexample: with history `[10, 10.25]` the returned
movement field is `round(0.25, 1) = 0.2`, not the exact difference `0.25`
the claim asserts. -/
theorem thmC6_counterexample :
    (get_line_movement st6 "p" "kills" "prizepicks").map LineMovement.movement =
      some (1/5) ∧
    (1/5 : ℚ) ≠ 41/4 - 10 := by
  constructor
  · have hmv : get_line_movement st6 "p" "kills" "prizepicks" =
        some ⟨41/4, some 10, 1/5, "stable", false, 2, 0, 0⟩ := by
      have hsub : substrB "kill".toList (lowChars "kills") = true := by decide
      simp only [get_line_movement, st6_history, lastTwoD, hsub]
      norm_num [round1, rhe, LineMovement.mk.injEq]
      rw [show |(1:ℚ)/4| = 1/4 from abs_of_pos (by norm_num)]
      norm_num
    rw [hmv]
    rfl
  · norm_num

/-- Claim C6 witness: the spec's own example — history `[10, 11.7]` on a
kills key yields movement `1.7`, direction `up`, significant at the 1.5
threshold. -/
theorem thmC6_witness :
    st6w.line_history "q" ("kills" ++ "_" ++ "prizepicks") =
      [⟨0, 10, "prizepicks"⟩, ⟨0, 117/10, "prizepicks"⟩] ∧
    get_line_movement st6w "q" "kills" "prizepicks" =
      some ⟨117/10, some 10, 17/10, "up", true, 2, 0, 0⟩ := by
  have hh : st6w.line_history "q" ("kills" ++ "_" ++ "prizepicks") =
      [⟨0, 10, "prizepicks"⟩, ⟨0, 117/10, "prizepicks"⟩] := by
    have h1 : truthyQ (some ((117:ℚ)/10)) = true := by
      simp [truthyQ]
    simp [st6w, record_lines, recordProp, truthyS, truthyQ, trim50, emptyTracker, h1]
  refine ⟨hh, ?_⟩
  have hth := (thmC6_movement st6w "q" "kills" "prizepicks" [] ⟨0, 10, "prizepicks"⟩
    ⟨0, 117/10, "prizepicks"⟩ (by simpa using hh)).1
  rw [hth]
  have hsub : substrB "kill".toList (lowChars "kills") = true := by decide
  have hsub2 : substrB ['k', 'i', 'l', 'l'] (lowChars "kills") = true := by decide
  have habs : |(117:ℚ)/10 - 10| = 17/10 := by
    rw [abs_of_pos] <;> norm_num
  have habs2 : |(17:ℚ)/10| = 17/10 := abs_of_pos (by norm_num)
  norm_num [hsub, hsub2, habs, habs2, round1, rhe, LineMovement.mk.injEq]

/-- Dropping all but the last 50 keeps at most 50 entries. -/
lemma length_keep50 (L : List LineEntry) : (L.drop (L.length - 50)).length ≤ 50 := by
  rw [List.length_drop]
  omega

/-- Appending one entry to a kept-suffix and trimming keeps the suffix
relation to the grown log. -/
lemma trim50_append (L : List LineEntry) (e : LineEntry) :
    trim50 (L.drop (L.length - 50) ++ [e]) = (L ++ [e]).drop ((L ++ [e]).length - 50) := by
  unfold trim50
  rcases le_or_lt L.length 49 with hL | hL
  · rw [if_neg]
    · rw [show L.length - 50 = 0 by omega]
      rw [show (L ++ [e]).length - 50 = 0 by simp; omega]
      simp
    · simp [List.length_drop]
      omega
  · have hlen : (L.drop (L.length - 50)).length = 50 := by
      rw [List.length_drop]
      omega
    rw [if_pos]
    · rw [List.length_append, hlen]
      rw [show 50 + [e].length - 50 = 1 by simp]
      rw [List.drop_append_of_le_length (by omega : 1 ≤ (L.drop (L.length - 50)).length)]
      rw [List.drop_drop]
      rw [List.length_append]
      rw [show L.length + [e].length - 50 = (L.length - 50) + 1 by simp; omega]
      rw [List.drop_append_of_le_length (by omega : L.length - 50 + 1 ≤ L.length)]
    · rw [List.length_append, hlen]
      simp

/-- Effect of recording one prop on one tracker key. -/
lemma recordProp_hist (ts : ℕ) (st : LineMovementTracker) (p : TProp)
    (player hkey : String) :
    (recordProp ts st p).line_history player hkey =
      match entryFor ts player hkey p with
      | some e => trim50 (st.line_history player hkey ++ [e])
      | none => st.line_history player hkey := by
  by_cases hc : (truthyS p.player_name && truthyS p.stat_type && truthyQ p.line) = true
  · by_cases hp : p.player_name.getD "" = player
    · by_cases hk : p.stat_type.getD "" ++ "_" ++ p.platform.getD "prizepicks" = hkey
      · simp [recordProp, entryFor, hc, hp, hk]
      · simp [recordProp, entryFor, hc, hp, hk]
        intro h
        exact absurd h.symm hk
    · simp [recordProp, entryFor, hc, hp]
      intro h1 h2
      exact absurd h1.symm hp
  · simp [recordProp, entryFor, hc]

/-- Effect of one `record_lines` call on one tracker key: fold the call's
relevant entries in, trimming after each append. -/
lemma record_lines_hist (props : List TProp) (ts : ℕ) (st : LineMovementTracker)
    (player hkey : String) :
    (record_lines st props ts).line_history player hkey =
      (props.filterMap (entryFor ts player hkey)).foldl
        (fun h e => trim50 (h ++ [e])) (st.line_history player hkey) := by
  induction props generalizing st with
  | nil => rfl
  | cons p ps ih =>
    have hstep : record_lines st (p :: ps) ts = record_lines (recordProp ts st p) ps ts := rfl
    rw [hstep, ih (recordProp ts st p), recordProp_hist]
    cases hef : entryFor ts player hkey p
    · simp [List.filterMap_cons, hef]
    · simp [List.filterMap_cons, hef]

/-- Trim-folding new entries onto a kept suffix yields the kept suffix of
the full log. -/
lemma trimFold_drop (es : List LineEntry) : ∀ L : List LineEntry,
    es.foldl (fun h e => trim50 (h ++ [e])) (L.drop (L.length - 50)) =
      (L ++ es).drop ((L ++ es).length - 50) := by
  induction es with
  | nil => intro L; simp
  | cons e es ih =>
    intro L
    rw [List.foldl_cons, trim50_append]
    have h2 := ih (L ++ [e])
    rw [show (L ++ [e]) ++ es = L ++ (e :: es) by simp] at h2
    exact h2

/-- Running a sequence of `record_lines` calls keeps, per key, exactly the
last-50 suffix of the full conceptual log. -/
lemma runCalls_hist : ∀ (calls : List (ℕ × List TProp)) (st : LineMovementTracker)
    (L : List LineEntry) (player hkey : String),
    st.line_history player hkey = L.drop (L.length - 50) →
    (runCalls st calls).line_history player hkey =
      (L ++ (calls.map (fun c => c.2.filterMap (entryFor c.1 player hkey))).flatten).drop
        ((L ++ (calls.map (fun c => c.2.filterMap (entryFor c.1 player hkey))).flatten).length
          - 50) := by
  intro calls
  induction calls with
  | nil =>
    intro st L player hkey h
    simpa using h
  | cons c cs ih =>
    intro st L player hkey h
    have hstep : runCalls st (c :: cs) = runCalls (record_lines st c.2 c.1) cs := rfl
    have hone : (record_lines st c.2 c.1).line_history player hkey =
        (L ++ c.2.filterMap (entryFor c.1 player hkey)).drop
          ((L ++ c.2.filterMap (entryFor c.1 player hkey)).length - 50) := by
      rw [record_lines_hist, h, trimFold_drop]
    have h2 := ih (record_lines st c.2 c.1)
      (L ++ c.2.filterMap (entryFor c.1 player hkey)) player hkey hone
    rw [hstep, h2]
    simp [List.append_assoc]

/-- Claim C8: after any sequence of `record_lines` calls, each key's stored
history is exactly the last-50 suffix of the full log of observations
recorded for it (so at most 50 entries; beyond 50, the oldest are evicted
first and the 50 most recent remain). -/
theorem thmC8_history_bound (calls : List (ℕ × List TProp)) (player hkey : String) :
    (runCalls emptyTracker calls).line_history player hkey =
      (logFor player hkey calls).drop ((logFor player hkey calls).length - 50) ∧
    ((runCalls emptyTracker calls).line_history player hkey).length ≤ 50 := by
  have hlog : logFor player hkey calls =
      (calls.map (fun c => c.2.filterMap (entryFor c.1 player hkey))).flatten := by
    unfold logFor
    rw [foldl_append_acc]
    simp
  have h0 : emptyTracker.line_history player hkey =
      ([] : List LineEntry).drop (([] : List LineEntry).length - 50) := rfl
  have hmain := runCalls_hist calls emptyTracker [] player hkey h0
  simp only [List.nil_append] at hmain
  constructor
  · rw [hlog]
    exact hmain
  · rw [hmain]
    exact length_keep50 _

/-- Claim C10: `record_lines` stores a history entry and updates the
current-lines index for a prop exactly when player name, stat type and
line are all Python-truthy; a line of exactly `0` (like a missing line, an
empty name or a missing field) is silently skipped. -/
theorem thmC10_truthiness_gate (st : LineMovementTracker) (ts : ℕ) (p : TProp) :
    ((truthyS p.player_name && truthyS p.stat_type && truthyQ p.line) = false →
      record_lines st [p] ts = st) ∧
    (∀ (name stat : String) (l : ℚ),
      p.player_name = some name → p.stat_type = some stat → p.line = some l →
      name ≠ "" → stat ≠ "" → l ≠ 0 →
      (record_lines st [p] ts).line_history name
          (stat ++ "_" ++ p.platform.getD "prizepicks") =
        trim50 (st.line_history name (stat ++ "_" ++ p.platform.getD "prizepicks") ++
          [⟨ts, l, p.platform.getD "prizepicks"⟩]) ∧
      (record_lines st [p] ts).current_lines
          (name ++ "_" ++ stat ++ "_" ++ p.platform.getD "prizepicks") =
        some ⟨ts, l, p.platform.getD "prizepicks"⟩) := by
  constructor
  · intro h
    show recordProp ts st p = st
    simp [recordProp, h]
  · intro name stat l hpn hst hl hname hstat hl0
    have hc : (truthyS p.player_name && truthyS p.stat_type && truthyQ p.line) = true := by
      simp [truthyS, truthyQ, hpn, hst, hl, hname, hstat, hl0]
    show (recordProp ts st p).line_history _ _ = _ ∧ (recordProp ts st p).current_lines _ = _
    simp [recordProp, truthyS, truthyQ, hpn, hst, hl, hname, hstat, hl0]

/-- Claim C10 witness: a prop with line exactly `0` is skipped outright,
while the same prop with line `20.5` (platform defaulted to prizepicks) is
stored in both indices. -/
theorem thmC10_witness :
    (truthyS (some "x") && truthyS (some "kills") && truthyQ (some (0:ℚ))) = false ∧
    record_lines emptyTracker [⟨some "x", some "kills", some 0, none⟩] 0 = emptyTracker ∧
    (record_lines emptyTracker [⟨some "x", some "kills", some (41/2), none⟩] 5).line_history
        "x" ("kills" ++ "_" ++ "prizepicks") = [⟨5, 41/2, "prizepicks"⟩] ∧
    (record_lines emptyTracker [⟨some "x", some "kills", some (41/2), none⟩] 5).current_lines
        ("x" ++ "_" ++ "kills" ++ "_" ++ "prizepicks") = some ⟨5, 41/2, "prizepicks"⟩ := by
  have h2 := (thmC10_truthiness_gate emptyTracker 5
      ⟨some "x", some "kills", some (41/2), none⟩).2 "x" "kills" (41/2)
      rfl rfl rfl (by decide) (by decide) (by norm_num)
  refine ⟨by decide,
    (thmC10_truthiness_gate emptyTracker 0 ⟨some "x", some "kills", some 0, none⟩).1 (by decide),
    ?_, ?_⟩
  · simpa [emptyTracker, trim50] using h2.1
  · simpa using h2.2

/-- The per-match chunk size is always positive. -/
lemma chunkSize_pos (n : ℕ) : 0 < chunkSize n := by
  unfold chunkSize
  split <;> omega

/-- Chunks with different indices never share a player (on a duplicate-free
player list). -/
lemma fallbackChunk_disjoint (ps : List String) (hnd : ps.Nodup) (i j : ℕ) (hij : i < j) :
    ∀ x ∈ fallbackChunk ps i, x ∉ fallbackChunk ps j := by
  intro x hxi hxj
  unfold fallbackChunk at hxi hxj
  set s := chunkSize ps.length with hs_def
  have hij' : i * s + s ≤ j * s := by
    have h1 : (i + 1) * s ≤ j * s := Nat.mul_le_mul_right s (Nat.succ_le_of_lt hij)
    calc i * s + s = (i + 1) * s := by ring
    _ ≤ j * s := h1
  have hnd' : (ps.drop (i * s)).Nodup := (List.drop_sublist _ _).nodup hnd
  have hdisj := List.disjoint_take_drop hnd' (Nat.le_refl s)
  have h1 : x ∈ ps.drop (j * s) := List.take_subset _ _ hxj
  have h2 : x ∈ ps.drop (i * s + s) := List.drop_subset_drop_left ps hij' h1
  have h3 : ps.drop (i * s + s) = (ps.drop (i * s)).drop s := (List.drop_drop _ _ _).symm
  exact hdisj hxi (h3 ▸ h2)

/-- The first `k` chunks concatenate to the first `k · s` players. -/
lemma fallbackChunks_flatten (ps : List String) (k : ℕ) :
    ((List.range k).map (fallbackChunk ps)).flatten =
      ps.take (k * chunkSize ps.length) := by
  induction k with
  | zero => simp
  | succ k ih =>
    rw [List.range_succ, List.map_append, List.flatten_append, ih]
    simp only [List.map_cons, List.map_nil, List.flatten_cons, List.flatten_nil,
      List.append_nil]
    rw [show (k + 1) * chunkSize ps.length =
        k * chunkSize ps.length + chunkSize ps.length from by ring]
    rw [List.take_add]
    rfl

/-- Ceiling bound: `⌈N / s⌉ · s` covers all `N` players. -/
lemma ceil_mul_ge (N s : ℕ) (hs : 0 < s) : N ≤ ((N + s - 1) / s) * s := by
  rcases Nat.eq_zero_or_pos N with h0 | h0
  · subst h0
    exact Nat.zero_le _
  · have h1 : N + s - 1 = (N - 1) + s := by omega
    rw [h1, Nat.add_div_right _ hs]
    have hdm := Nat.div_add_mod (N - 1) s
    have hr : (N - 1) % s < s := Nat.mod_lt _ hs
    have h2 : ((N - 1) / s + 1) * s = s * ((N - 1) / s) + s := by ring
    omega

/-- A chunk is nonempty exactly when its index is below `⌈N / s⌉`. -/
lemma fallbackChunk_ne_nil_iff (ps : List String) (i : ℕ) :
    fallbackChunk ps i ≠ [] ↔
      i < (ps.length + chunkSize ps.length - 1) / chunkSize ps.length := by
  set s := chunkSize ps.length with hs_def
  have hs : 0 < s := chunkSize_pos _
  have h1 : fallbackChunk ps i = [] ↔ ps.length ≤ i * s := by
    unfold fallbackChunk
    rw [← hs_def, List.take_eq_nil_iff, List.drop_eq_nil_iff]
    constructor
    · rintro (h | h)
      · omega
      · exact h
    · exact Or.inr
  have h2 : i < (ps.length + s - 1) / s ↔ (i + 1) * s ≤ ps.length + s - 1 := by
    rw [show (i < (ps.length + s - 1) / s) = (i + 1 ≤ (ps.length + s - 1) / s) from rfl]
    exact Nat.le_div_iff_mul_le hs
  rw [Ne, h1, h2]
  have h3 : (i + 1) * s = i * s + s := by ring
  omega

/-- Claim C4: with the global player list captured, successive fallback
calls hand out consecutive non-overlapping chunks of size
`max(10, N / 10)`; the first `⌈N / chunk⌉` chunks are exactly the nonempty
ones and partition the list in order, and each call advances the counter by
one while emitting records only for its own chunk. -/
theorem thmC4_fallback_partition (ps : List String) (hnd : ps.Nodup) :
    (∀ i j, i < j → ∀ x ∈ fallbackChunk ps i, x ∉ fallbackChunk ps j) ∧
    ((List.range ((ps.length + chunkSize ps.length - 1) / chunkSize ps.length)).map
        (fallbackChunk ps)).flatten = ps ∧
    (∀ i, fallbackChunk ps i ≠ [] ↔
      i < (ps.length + chunkSize ps.length - 1) / chunkSize ps.length) ∧
    (∀ (st : AggState) (mid t1 t2 : String) (pp ud : List AggProp),
      st.all_players = some ps →
      computeMatchedPlayers (buildPlayerProps pp ud)
          (normalize_team_name t1) (normalize_team_name t2) = [] →
      find_matching_props st mid t1 t2 pp ud =
        (emitRecords mid t1 t2 (buildPlayerProps pp ud) (fallbackChunk ps st.match_counter),
         ⟨some ps, st.match_counter + 1⟩)) := by
  refine ⟨fallbackChunk_disjoint ps hnd, ?_, fallbackChunk_ne_nil_iff ps, ?_⟩
  · rw [fallbackChunks_flatten]
    exact List.take_of_length_le (ceil_mul_ge _ _ (chunkSize_pos _))
  · intro st mid t1 t2 pp ud hall hmatch
    simp [find_matching_props, hmatch, hall]

/-- Claim C4 witness: 25 players give chunk size 10 and exactly 3 chunks
that reassemble the list; a fallback call advances the counter. -/
theorem thmC4_witness :
    ps25.Nodup ∧
    ((List.range 3).map (fallbackChunk ps25)).flatten = ps25 ∧
    (find_matching_props ⟨some ps25, 0⟩ "w4" "TeamA" "TeamB" [] []).2 = ⟨some ps25, 1⟩ := by
  refine ⟨by decide, ?_, ?_⟩
  · exact (thmC4_fallback_partition ps25 (by decide)).2.1
  · exact congrArg Prod.snd
      ((thmC4_fallback_partition ps25 (by decide)).2.2.2 ⟨some ps25, 0⟩
        "w4" "TeamA" "TeamB" [] [] rfl rfl)

/-- Every record in a player's block names that player. -/
lemma playerBlock_names {rec : RawProp} {mid t1 t2 player : String}
    {props : List (String × PlayerData)} {matched : List String}
    (h : rec ∈ playerBlock mid t1 t2 props matched player) : rec.player_name = player := by
  obtain ⟨pd, -, hn, -⟩ := mem_playerBlock h
  exact hn

/-- Filtering the flattened blocks by player picks out that player's block
(blocks are homogeneous in player name and the roster has no duplicates). -/
lemma filter_players_flatten (p : String) :
    ∀ (matched : List String), matched.Nodup → p ∈ matched →
    ∀ g : String → List RawProp, (∀ q ∈ matched, ∀ rec ∈ g q, rec.player_name = q) →
    ((matched.map g).flatten.filter (fun r => r.player_name == p)) = g p := by
  intro matched
  induction matched with
  | nil =>
    intro _ hp
    cases hp
  | cons x xs ih =>
    intro hnd hp g hg
    rw [List.map_cons, List.flatten_cons, List.filter_append]
    rcases List.mem_cons.mp hp with rfl | hpxs
    · have hx : (g p).filter (fun r => r.player_name == p) = g p := by
        apply List.filter_eq_self.mpr
        intro rec hrec
        have hn := hg p (List.mem_cons_self _ _) rec hrec
        simp [hn]
      have hxs : ((xs.map g).flatten.filter (fun r => r.player_name == p)) = [] := by
        apply List.filter_eq_nil_iff.mpr
        intro rec hrec
        obtain ⟨blk, hblk, hrecblk⟩ := List.mem_flatten.mp hrec
        obtain ⟨q, hq, rfl⟩ := List.mem_map.mp hblk
        have hname := hg q (List.mem_cons_of_mem _ hq) rec hrecblk
        have hqp : q ≠ p := by
          rintro rfl
          exact (List.nodup_cons.mp hnd).1 hq
        simp [hname, hqp]
      rw [hx, hxs, List.append_nil]
    · have hxp : x ≠ p := by
        rintro rfl
        exact (List.nodup_cons.mp hnd).1 hpxs
      have hx : (g x).filter (fun r => r.player_name == p) = [] := by
        apply List.filter_eq_nil_iff.mpr
        intro rec hrec
        have hname := hg x (List.mem_cons_self _ _) rec hrec
        simp [hname, hxp]
      rw [hx, List.nil_append]
      exact ih (List.nodup_cons.mp hnd).2 hpxs g
        (fun q hq => hg q (List.mem_cons_of_mem _ hq))

/-- The stat types of a player's records are the stat entries with at
least one truthy platform line, in order. -/
lemma statRecords_stat_types (mid p t : String) (stats : List (String × StatLines)) :
    (statRecords mid p t stats).map RawProp.stat_type =
      (stats.filter
        (fun q => truthyQ q.2.prizepicks || truthyQ q.2.underdog)).map Prod.fst := by
  rw [statRecords_eq]
  induction stats with
  | nil => rfl
  | cons s ss ih =>
    by_cases hc : (truthyQ s.2.prizepicks || truthyQ s.2.underdog) = true
    · simp [statRecord, hc, List.filter_cons, ih]
    · simp [statRecord, hc, List.filter_cons, ih]

/-- A truthy platform line contributes a nonempty `dfs_lines` fragment. -/
lemma lineList_ne_nil {o : Option ℚ} (h : truthyQ o = true) (plat stat : String) :
    lineList plat stat o ≠ [] := by
  cases o with
  | none => simp [truthyQ] at h
  | some l =>
    simp only [truthyQ, ne_eq, decide_eq_true_eq] at h
    simp [lineList, h]

/-- Claim C5 (amended): for every player assigned to the match, the stat
types of the emitted records are exactly the stat types for which at least
one platform reported a truthy (non-zero, non-missing) line — the union of
reported stat types minus those whose every line is zero — and every
emitted record carries at least one platform line. -/
theorem thmC5_aggregation (st : AggState) (mid t1 t2 : String) (pp ud : List AggProp)
    (hnd : (matchedPlayersOf st t1 t2 pp ud).Nodup) :
    (∀ (player : String) (pd : PlayerData),
      player ∈ matchedPlayersOf st t1 t2 pp ud →
      (buildPlayerProps pp ud).find? (fun q => q.1 == player) = some (player, pd) →
      ((find_matching_props st mid t1 t2 pp ud).1.filter
          (fun r => r.player_name == player)).map RawProp.stat_type =
        (pd.stats.filter
          (fun q => truthyQ q.2.prizepicks || truthyQ q.2.underdog)).map Prod.fst) ∧
    (∀ rec ∈ (find_matching_props st mid t1 t2 pp ud).1, rec.dfs_lines ≠ []) := by
  constructor
  · intro player pd hmem hfind
    rw [find_matching_props_fst, emitRecords_eq]
    have hf := filter_players_flatten player (matchedPlayersOf st t1 t2 pp ud) hnd hmem
      (playerBlock mid t1 t2 (buildPlayerProps pp ud) (matchedPlayersOf st t1 t2 pp ud))
      (fun q _ rec hrec => playerBlock_names hrec)
    rw [hf]
    simp only [playerBlock, hfind]
    exact statRecords_stat_types _ _ _ _
  · intro rec hrec
    rw [find_matching_props_fst, emitRecords_eq] at hrec
    obtain ⟨blk, hblk, hr⟩ := List.mem_flatten.mp hrec
    obtain ⟨player, -, rfl⟩ := List.mem_map.mp hblk
    unfold playerBlock at hr
    split at hr
    · simp at hr
    · next q hq =>
      rw [statRecords_eq] at hr
      obtain ⟨blk2, hblk2, hr2⟩ := List.mem_flatten.mp hr
      obtain ⟨s, -, rfl⟩ := List.mem_map.mp hblk2
      obtain ⟨hcond, rfl⟩ := mem_statRecord hr2
      rw [Bool.or_eq_true] at hcond
      rcases hcond with h | h
      · intro hnil
        exact lineList_ne_nil h "prizepicks" s.1 (List.append_eq_nil.mp hnil).1
      · intro hnil
        exact lineList_ne_nil h "underdog" s.1 (List.append_eq_nil.mp hnil).2

/-- Claim C3 witness: a player whose reported team substring-matches team1
is emitted with team1 as its team, per the decision rule. -/
theorem thmC3_witness :
    recTeamed ∈ (find_matching_props ⟨none, 0⟩ "w3" "Astralis" "ENCE" ppTeamed []).1 ∧
    (∃ pd : PlayerData,
      (buildPlayerProps ppTeamed []).find? (fun q => q.1 == recTeamed.player_name) =
        some (recTeamed.player_name, pd) ∧
      recTeamed.team = teamChoiceSpec "Astralis" "ENCE"
        (matchedPlayersOf ⟨none, 0⟩ "Astralis" "ENCE" ppTeamed [])
        recTeamed.player_name pd.team) := by
  have hout : (find_matching_props ⟨none, 0⟩ "w3" "Astralis" "ENCE" ppTeamed []).1 =
      [recTeamed] := rfl
  have hmem : recTeamed ∈ (find_matching_props ⟨none, 0⟩ "w3" "Astralis" "ENCE"
      ppTeamed []).1 := by
    rw [hout]
    exact List.mem_singleton_self _
  exact ⟨hmem,
    (thmC3_team_assignment ⟨none, 0⟩ "w3" "Astralis" "ENCE" ppTeamed []).1 recTeamed hmem⟩

/-- Claim C5 witness: with a truthy kills line and a zero headshots line
for one team-matched player, only the kills record is emitted, and every
emitted record carries a nonempty `dfs_lines`. -/
theorem thmC5_witness :
    (matchedPlayersOf ⟨none, 0⟩ "G2" "MOUZ" ppMixed []).Nodup ∧
    ((find_matching_props ⟨none, 0⟩ "w5" "G2" "MOUZ" ppMixed []).1.filter
        (fun r => r.player_name == "NiKo")).map RawProp.stat_type = ["kills"] ∧
    (∀ rec ∈ (find_matching_props ⟨none, 0⟩ "w5" "G2" "MOUZ" ppMixed []).1,
      rec.dfs_lines ≠ []) := by
  have h := thmC5_aggregation ⟨none, 0⟩ "w5" "G2" "MOUZ" ppMixed [] (by decide)
  refine ⟨by decide, ?_, h.2⟩
  have h1 := h.1 "NiKo"
    ⟨"G2", "", [("kills", ⟨some 42, none⟩), ("headshots", ⟨some 0, none⟩)]⟩
    (by decide) rfl
  rw [h1]
  rfl

/-- Claim C2 counterexample: with lines `[10.0, 10.1]` (baseline 10.05) and
a variance draw landing the projection on 13.0, the unrounded divergence is
2.95 — below the kills threshold, so `value_opportunity` is false — yet the
stored difference field is `round(2.95, 1) = 3.0`, whose absolute value
meets the threshold.  The flag is not a function of the stored field. -/
theorem thmC2_counterexample :
    generate_projection modelS1 "s1mple" "ENCE" "ENCE" "kills"
        [⟨"prizepicks", "kills", 10, "Map1+Map2"⟩,
         ⟨"underdog", "kills", 101/10, "Map1+Map2"⟩] 2 (59/201) =
      some (⟨13, 326/5, 3, false, 201/20, 1, 1⟩, modelS1) ∧
    (⟨13, 326/5, 3, false, 201/20, 1, 1⟩ : ProjFragment).value_opportunity = false ∧
    (3 : ℚ) ≤ |(⟨13, 326/5, 3, false, 201/20, 1, 1⟩ : ProjFragment).difference| := by
  have hform : calculate_player_form modelS1 "s1mple" 2 = (1, modelS1) := rfl
  have hadj : calculate_opponent_adjustment modelS1 "ENCE" "ENCE" = 1 := by
    have h : calculate_opponent_adjustment modelS1 "ENCE" "ENCE" =
        1 + ((1 : ℚ) / 1 - 1) * (25/100) := rfl
    rw [h]; norm_num
  have habs : |(59:ℚ)/20| = 59/20 := abs_of_pos (by norm_num)
  refine ⟨?_, rfl, ?_⟩
  · simp only [generate_projection, hform, hadj]
    norm_num [round1, rhe, ProjFragment.mk.injEq, habs, Int.fract]
  · show (3 : ℚ) ≤ |(3 : ℚ)|
    rw [abs_of_pos] <;> norm_num
